import Mathlib

/-!
# Verification of the boringstreamer broadcast pipeline

Shallow embedding of the core of `boringstreamer` (main.go): ID3 tag
stripping, the subscriber registry (`subscribe` / eviction), the frame
pacing loop, the per-frame broadcast fan-out, the discovery/shuffle stage
and the per-connection HTTP session loop.  Byte buffers are `List Nat`,
Go operations that panic (out-of-range index or slice) are modelled as
`none`, and time quantities are integers (nanoseconds).
-/

set_option maxHeartbeats 1000000

namespace Boringstreamer

/-! ## ID3 header stripping (`stripID3Header`) -/

/-- The 3-byte tag marker `"ID3"` checked by `stripID3Header`. -/
def id3Marker : List Nat := [0x49, 0x44, 0x33]

/-- The size computation of `stripID3Header`:
`int32(buf[6])<<21 | int32(buf[7])<<14 | int32(buf[8])<<7 | int32(buf[9])`.
All four bytes are below 256, so the `int32` computation never overflows
and is faithfully represented on `Nat`. -/
def id3SizeOf (b6 b7 b8 b9 : Nat) : Nat :=
  b6 <<< 21 ||| b7 <<< 14 ||| b8 <<< 7 ||| b9

/-- Shallow embedding of `stripID3Header` on the buffer returned by
`ioutil.ReadAll`.  `ReadAll` returns a slice whose backing array has
capacity at least 512 (`bytes.MinRead`), with the bytes beyond the length
zero-initialized, and a Go slice expression `buf[:3]` is bounded by
capacity, not length — so the marker test never faults: it compares the
first three bytes, zero-padded when the buffer is shorter.  The index
expressions `buf[6]`‥`buf[9]` are length-bounded, and the slice
`buf[id3size:]` requires `id3size ≤ len(buf)`; those genuinely panic
(modelled as `none`) exactly when a marked buffer is shorter than 10
bytes or its declared tag overruns the buffer. -/
def stripID3Header (buf : List Nat) : Option (List Nat) :=
  if buf.take 3 ++ List.replicate (3 - buf.length) 0 ≠ id3Marker then some buf
  else if buf.length < 10 then none
  else
    let id3size := id3SizeOf (buf.getD 6 0) (buf.getD 7 0) (buf.getD 8 0) (buf.getD 9 0) + 10
    if buf.length < id3size then none
    else some (buf.drop id3size)

/-- The zero-padded marker comparison succeeds exactly on buffers that
really begin with the three marker bytes: the marker contains no zero
byte, so a buffer shorter than 3 bytes can never match. -/
theorem padded_marker_iff (buf : List Nat) :
    buf.take 3 ++ List.replicate (3 - buf.length) 0 = id3Marker ↔
      3 ≤ buf.length ∧ buf.take 3 = id3Marker := by
  match buf with
  | [] => simp [id3Marker]
  | [a] =>
    simp only [id3Marker, List.take, List.length_cons, List.length_nil]
    constructor
    · intro h
      simp at h
    · intro h
      omega
  | [a, b] =>
    simp only [id3Marker, List.take, List.length_cons, List.length_nil]
    constructor
    · intro h
      simp at h
    · intro h
      omega
  | a :: b :: c :: rest =>
    simp [id3Marker]

/-- The 28-bit syncsafe decoding described by the specification: each of
the four size bytes contributes 7 bits. -/
def syncsafeSize (b6 b7 b8 b9 : Nat) : Nat :=
  b6 * 2 ^ 21 + b7 * 2 ^ 14 + b8 * 2 ^ 7 + b9

/-- When the four size bytes are valid syncsafe bytes (high bit clear),
the code's or-of-shifts size computation agrees with the specification's
7-bits-per-byte decoding. -/
theorem id3SizeOf_eq_syncsafeSize {b6 b7 b8 b9 : Nat} (h6 : b6 < 128) (h7 : b7 < 128)
    (h8 : b8 < 128) (h9 : b9 < 128) :
    id3SizeOf b6 b7 b8 b9 = syncsafeSize b6 b7 b8 b9 := by
  have p7 : (2 : Nat) ^ 7 = 128 := by norm_num
  have p14 : (2 : Nat) ^ 14 = 16384 := by norm_num
  have p21 : (2 : Nat) ^ 21 = 2097152 := by norm_num
  have e1 : (2 : Nat) ^ 7 * b8 + b9 = 2 ^ 7 * b8 ||| b9 :=
    Nat.mul_add_lt_is_or (by omega) b8
  have e2 : (2 : Nat) ^ 14 * b7 + (2 ^ 7 * b8 + b9)
      = 2 ^ 14 * b7 ||| (2 ^ 7 * b8 ||| b9) := by
    rw [Nat.mul_add_lt_is_or (by omega) b7, e1]
  have e3 : (2 : Nat) ^ 21 * b6 + (2 ^ 14 * b7 + (2 ^ 7 * b8 + b9))
      = 2 ^ 21 * b6 ||| (2 ^ 14 * b7 ||| (2 ^ 7 * b8 ||| b9)) := by
    rw [Nat.mul_add_lt_is_or (by omega) b6, e2]
  unfold id3SizeOf syncsafeSize
  rw [Nat.shiftLeft_eq, Nat.shiftLeft_eq, Nat.shiftLeft_eq, Nat.lor_assoc, Nat.lor_assoc,
    Nat.mul_comm b6, Nat.mul_comm b7, Nat.mul_comm b8, ← e3]
  ring

/-- C3 (amended): a buffer that begins with the marker, has valid
syncsafe size bytes (high bit clear — the specification's own "high bit
always zero" condition) and whose declared tag (`10 + s` bytes) fits
inside it yields the suffix starting at offset `10 + s` (`s` the syncsafe
decoding of bytes 6‥9); every buffer not beginning with the marker — of
any length, short ones included — is returned unchanged, byte-for-byte. -/
theorem stripID3Header_spec (buf : List Nat) :
    (buf.take 3 = id3Marker →
      buf.getD 6 0 < 128 → buf.getD 7 0 < 128 → buf.getD 8 0 < 128 → buf.getD 9 0 < 128 →
      10 + syncsafeSize (buf.getD 6 0) (buf.getD 7 0) (buf.getD 8 0) (buf.getD 9 0) ≤
        buf.length →
      stripID3Header buf =
        some (buf.drop
          (10 + syncsafeSize (buf.getD 6 0) (buf.getD 7 0) (buf.getD 8 0) (buf.getD 9 0))))
    ∧ (¬(3 ≤ buf.length ∧ buf.take 3 = id3Marker) → stripID3Header buf = some buf) := by
  constructor
  · intro hmark h6 h7 h8 h9 hfit
    have hlen3 : 3 ≤ buf.length := by
      have := congrArg List.length hmark
      simp [List.length_take, id3Marker] at this
      omega
    have hpad : buf.take 3 ++ List.replicate (3 - buf.length) 0 = id3Marker :=
      (padded_marker_iff buf).2 ⟨hlen3, hmark⟩
    have hsize := id3SizeOf_eq_syncsafeSize h6 h7 h8 h9
    have hfit2 : id3SizeOf (buf.getD 6 0) (buf.getD 7 0) (buf.getD 8 0) (buf.getD 9 0) + 10 ≤
        buf.length := by rw [hsize]; omega
    simp only [stripID3Header]
    rw [if_neg (not_not_intro hpad), if_neg (by omega), if_neg (by omega), hsize,
      Nat.add_comm]
  · intro hmark
    have hpad : buf.take 3 ++ List.replicate (3 - buf.length) 0 ≠ id3Marker := by
      intro h
      exact hmark ((padded_marker_iff buf).1 h)
    simp only [stripID3Header]
    rw [if_pos hpad]

/-- C3 counterexample: a marked buffer whose declared tag (10 + 1 bytes)
overruns the 10-byte buffer: the claim predicts the (empty) suffix at
offset 11, but the code's `buf[id3size:]` slice is out of range. -/
theorem stripID3Header_overrun_cex :
    stripID3Header [0x49, 0x44, 0x33, 3, 0, 0, 0, 0, 0, 1] ≠
      some (List.drop 11 [0x49, 0x44, 0x33, 3, 0, 0, 0, 0, 0, 1]) := by decide

/-- C3 witness at a concrete marked buffer and a concrete short unmarked
buffer. -/
theorem stripID3Header_spec_witness :
    stripID3Header [0x49, 0x44, 0x33, 3, 0, 0, 0, 0, 0, 2, 7, 8, 9] = some [9]
    ∧ stripID3Header [1, 2] = some [1, 2] := by
  constructor
  · have h := (stripID3Header_spec [0x49, 0x44, 0x33, 3, 0, 0, 0, 0, 0, 2, 7, 8, 9]).1
      (by decide) (by decide) (by decide) (by decide) (by decide) (by decide)
    simpa using h
  · have h := (stripID3Header_spec [1, 2]).2 (by decide)
    simpa using h

/-- C10 counterexample: the empty buffer — fewer than 3 bytes — does not
fault, contrary to the claim: `ReadAll` buffers have capacity ≥ 512 and Go
slice expressions are capacity-bounded, so the marker test reads three
(zero) bytes from the backing array, fails to match, and the input is
returned unchanged. -/
theorem stripID3Header_short_cex : stripID3Header ([] : List Nat) = some [] := by decide

/-- C10 (amended): `stripID3Header` is not total over all byte inputs,
but the faults are confined to marked buffers: on a buffer beginning with
the marker whose declared tag size plus the 10-byte header exceeds the
buffer length (including any marked buffer shorter than 10 bytes, whose
size-byte reads already index out of range) its index/slice operations
are out of range; it is total precisely on the buffers that do not begin
with the marker — short buffers included — or whose declared tag fits
inside the input. -/
theorem stripID3Header_total_iff (buf : List Nat) :
    (stripID3Header buf).isSome = true ↔
      (3 ≤ buf.length ∧ buf.take 3 = id3Marker →
        id3SizeOf (buf.getD 6 0) (buf.getD 7 0) (buf.getD 8 0) (buf.getD 9 0) + 10 ≤
          buf.length) := by
  simp only [stripID3Header]
  by_cases hm : buf.take 3 ++ List.replicate (3 - buf.length) 0 = id3Marker
  · rw [if_neg (not_not_intro hm)]
    have hmark := (padded_marker_iff buf).1 hm
    by_cases h10 : buf.length < 10
    · rw [if_pos h10]
      constructor
      · intro h
        exact absurd h (by simp)
      · intro h
        have := h hmark
        omega
    · rw [if_neg h10]
      by_cases hfit : buf.length <
          id3SizeOf (buf.getD 6 0) (buf.getD 7 0) (buf.getD 8 0) (buf.getD 9 0) + 10
      · rw [if_pos hfit]
        constructor
        · intro h
          exact absurd h (by simp)
        · intro h
          have := h hmark
          omega
      · rw [if_neg hfit]
        constructor
        · intro _ _
          omega
        · intro _
          simp
  · rw [if_pos hm]
    constructor
    · intro _ hmark
      exact absurd ((padded_marker_iff buf).2 hmark) hm
    · intro _
      simp

/-- C10 witness: a minimal valid tagged buffer is accepted; a short
unmarked buffer is accepted (returned unchanged, no fault); and a marked
buffer whose declared tag overruns the buffer is classified as a fault. -/
theorem stripID3Header_total_iff_witness :
    (stripID3Header [0x49, 0x44, 0x33, 3, 0, 0, 0, 0, 0, 0]).isSome = true ∧
      (stripID3Header [7]).isSome = true ∧
      (stripID3Header [0x49, 0x44, 0x33, 3, 0, 0, 0, 0, 0, 1]).isSome = false := by
  refine ⟨?_, ?_, ?_⟩
  · exact (stripID3Header_total_iff [0x49, 0x44, 0x33, 3, 0, 0, 0, 0, 0, 0]).2
      (fun _ => by decide)
  · exact (stripID3Header_total_iff [7]).2 (fun h => absurd h.2 (by decide))
  · have h := (stripID3Header_total_iff [0x49, 0x44, 0x33, 3, 0, 0, 0, 0, 0, 1]).1
    cases hs : (stripID3Header [0x49, 0x44, 0x33, 3, 0, 0, 0, 0, 0, 1]).isSome with
    | false => rfl
    | true =>
      have h2 := h hs ⟨by decide, by decide⟩
      exact absurd h2 (by decide)

/-! ## Subscriber registry (`mux`, `subscribe`, the broadcast loop)

The registry `m.clients` is a Go map `int → chan streamFrame`; we model it
as an association list of `(qid, channel token)` pairs whose keys are kept
duplicate-free, channel values being identified by tokens drawn from a
fresh counter.  All accesses in the source happen under `m.Mutex`, and the
broadcast goroutine is the only writer besides `subscribe`, so the
interleavings relevant to the claims are the sequential ones modelled
here. -/

/-- The qid search loop of `subscribe`:
`for ; ok; _, ok = m.clients[qid] { if qid >= *maxConnections-1 { return -1, nil }; qid++ }`.
The loop body runs while `occ qid`; the guard `qid >= max-1` aborts with
the failure sentinel.  Since `qid` starts at `q0` and only increments, the
guard fires exactly when `max - 1 - qid` reaches zero, which is the
structural fuel used here. -/
def subscribeScanF (occ : Nat → Bool) : Nat → Nat → Option Nat
  | qid, 0 => if occ qid then none else some qid
  | qid, fuel + 1 => if occ qid then subscribeScanF occ (qid + 1) fuel else some qid

/-- The `subscribe` search starting from qid 0 (as in the source). -/
def subscribeScan (max : Nat) (occ : Nat → Bool) : Option Nat :=
  subscribeScanF occ 0 (max - 1)

/-- The mutable state of `mux` relevant to the registry claims:
the `clients` map, a supply of fresh channel identities, and the set of
channels that have been `close`d. -/
structure Mux where
  clients : List (Nat × Nat)
  nextCh : Nat
  closed : List Nat
deriving Repr, DecidableEq

/-- Model of `(*mux).subscribe`: find the smallest free qid (failing via the
`max-1` guard), and on success install a fresh channel under it.
Insertion into the Go map is modelled by consing the new binding (the key
is absent, so lookups agree). -/
def subscribe (max : Nat) (m : Mux) : Option Nat × Mux :=
  match subscribeScan max (fun q => (m.clients.lookup q).isSome) with
  | none => (none, m)
  | some q =>
    (some q, { m with clients := (q, m.nextCh) :: m.clients, nextCh := m.nextCh + 1 })

/-- Observable events of the broadcast loop: a frame sent to a channel, a
broadcast result received, an endpoint evicted (its channel closed and its
qid deleted). -/
inductive Ev where
  | sent (ch frame : Nat)
  | received (qid : Nat) (isErr : Bool)
  | evicted (qid ch : Nat)
deriving Repr, DecidableEq

/-- One fan-out round of the broadcast goroutine (`for _, ch := range
m.clients { ch <- f; br := <-m.result; if br.err != nil { close; delete } }`).
`snap` is the iteration snapshot of the map; a binding deleted during the
round is not produced again (Go's range guarantee), modelled by re-looking
the key up in the current map.  `reports ri` is the `ri`-th value read
from `m.result`; an error report for a qid that is not in the map would
`close(nil)` and panic, modelled as `none`.  Go's `delete` of one key is
modelled by filtering that key out (keys are duplicate-free). -/
def roundGo (reports : Nat → Nat × Bool) (frame : Nat) :
    List (Nat × Nat) → Mux → Nat → Option (Mux × List Ev × Nat)
  | [], m, ri => some (m, [], ri)
  | (q, _) :: rest, m, ri =>
    match m.clients.lookup q with
    | none => roundGo reports frame rest m ri
    | some ch =>
      if (reports ri).2 then
        match m.clients.lookup (reports ri).1 with
        | none => none
        | some rch =>
          match roundGo reports frame rest
              ({ m with
                  clients := m.clients.filter (fun p => p.1 != (reports ri).1)
                  closed := rch :: m.closed }) (ri + 1) with
          | none => none
          | some (m2, evs, ri2) =>
            some (m2, Ev.sent ch frame :: Ev.received (reports ri).1 true ::
              Ev.evicted (reports ri).1 rch :: evs, ri2)
      else
        match roundGo reports frame rest m (ri + 1) with
        | none => none
        | some (m2, evs, ri2) =>
          some (m2, Ev.sent ch frame :: Ev.received (reports ri).1 false :: evs, ri2)

/-- The operations the environment can drive the registry through: a new
connection subscribing, or the broadcast goroutine fanning one frame out
(with the environment choosing the broadcast results read from
`m.result`). -/
inductive MuxOp where
  | subscribe
  | broadcast (frame : Nat) (reports : Nat → Nat × Bool)

/-- One registry transition. -/
def step (max : Nat) (m : Mux) : MuxOp → Option (Mux × List Ev)
  | MuxOp.subscribe => some ((subscribe max m).2, [])
  | MuxOp.broadcast frame reports =>
    match roundGo reports frame m.clients m 0 with
    | none => none
    | some (m1, evs, _) => some (m1, evs)

/-- Running a sequence of operations, accumulating the event trace. -/
def run (max : Nat) (m : Mux) : List MuxOp → Option (Mux × List Ev)
  | [] => some (m, [])
  | op :: ops =>
    match step max m op with
    | none => none
    | some (m1, evs1) =>
      match run max m1 ops with
      | none => none
      | some (m2, evs2) => some (m2, evs1 ++ evs2)

/-- The initial state built by `(*mux).start`: empty map. -/
def mux0 : Mux := { clients := [], nextCh := 0, closed := [] }

/-! ### Association-list helper lemmas -/

theorem lookup_mem {l : List (Nat × Nat)} {q v : Nat} (h : l.lookup q = some v) :
    (q, v) ∈ l := by
  obtain ⟨l1, l2, rfl, -⟩ := List.lookup_eq_some_iff.1 h
  exact List.mem_append.2 (Or.inr (List.mem_cons_self _ _))

theorem lookup_isSome_iff {l : List (Nat × Nat)} {q : Nat} :
    (l.lookup q).isSome = true ↔ q ∈ l.map Prod.fst := by
  simp only [List.lookup_isSome_iff, beq_iff_eq, List.mem_map]
  constructor
  · rintro ⟨p, hp, hq⟩
    exact ⟨p, hp, hq.symm⟩
  · rintro ⟨p, hp, hq⟩
    exact ⟨p, hp, hq.symm⟩

theorem lookup_eq_none_iff {l : List (Nat × Nat)} {q : Nat} :
    l.lookup q = none ↔ q ∉ l.map Prod.fst := by
  rw [← lookup_isSome_iff]
  cases h : l.lookup q <;> simp

theorem snd_nodup_key_eq {l : List (Nat × Nat)} (h : (l.map Prod.snd).Nodup)
    {a b c : Nat} (ha : (a, c) ∈ l) (hb : (b, c) ∈ l) : a = b := by
  induction l with
  | nil => simp at ha
  | cons p t ih =>
    simp only [List.map_cons, List.nodup_cons] at h
    rcases List.mem_cons.1 ha with ha1 | ha1 <;> rcases List.mem_cons.1 hb with hb1 | hb1
    · exact congrArg Prod.fst (ha1.trans hb1.symm)
    · exfalso
      apply h.1
      have hc : p.2 = c := (congrArg Prod.snd ha1).symm
      rw [hc]
      exact List.mem_map_of_mem Prod.snd hb1
    · exfalso
      apply h.1
      have hc : p.2 = c := (congrArg Prod.snd hb1).symm
      rw [hc]
      exact List.mem_map_of_mem Prod.snd ha1
    · exact ih h.2 ha1 hb1

/-! ### Characterization of the qid search -/

theorem subscribeScanF_some {occ : Nat → Bool} :
    ∀ {fuel q0 q : Nat}, subscribeScanF occ q0 fuel = some q →
      q0 ≤ q ∧ q ≤ q0 + fuel ∧ occ q = false ∧ ∀ j, q0 ≤ j → j < q → occ j = true := by
  intro fuel
  induction fuel with
  | zero =>
    intro q0 q h
    rw [subscribeScanF] at h
    by_cases hocc : occ q0 = true
    · simp [hocc] at h
    · rw [if_neg hocc] at h
      injection h with h
      subst h
      exact ⟨Nat.le_refl _, by omega, by simpa using hocc, fun j h1 h2 => by omega⟩
  | succ fuel ih =>
    intro q0 q h
    rw [subscribeScanF] at h
    by_cases hocc : occ q0 = true
    · rw [if_pos hocc] at h
      obtain ⟨h1, h2, h3, h4⟩ := ih h
      refine ⟨by omega, by omega, h3, ?_⟩
      intro j hj1 hj2
      rcases Nat.eq_or_lt_of_le hj1 with rfl | hj
      · exact hocc
      · exact h4 j hj hj2
    · rw [if_neg hocc] at h
      injection h with h
      subst h
      exact ⟨Nat.le_refl _, by omega, by simpa using hocc, fun j h1 h2 => by omega⟩

theorem subscribeScanF_none {occ : Nat → Bool} :
    ∀ {fuel q0 : Nat}, subscribeScanF occ q0 fuel = none ↔
      ∀ j, q0 ≤ j → j ≤ q0 + fuel → occ j = true := by
  intro fuel
  induction fuel with
  | zero =>
    intro q0
    rw [subscribeScanF]
    by_cases hocc : occ q0 = true
    · rw [if_pos hocc]
      constructor
      · intro _ j hj1 hj2
        have : j = q0 := by omega
        rw [this]
        exact hocc
      · intro _
        rfl
    · rw [if_neg hocc]
      constructor
      · intro h
        exact absurd h (by simp)
      · intro h
        exact absurd (h q0 (Nat.le_refl _) (by omega)) hocc
  | succ fuel ih =>
    intro q0
    rw [subscribeScanF]
    by_cases hocc : occ q0 = true
    · rw [if_pos hocc, ih]
      constructor
      · intro h j hj1 hj2
        rcases Nat.eq_or_lt_of_le hj1 with rfl | hj
        · exact hocc
        · exact h j hj (by omega)
      · intro h j hj1 hj2
        exact h j (by omega) (by omega)
    · rw [if_neg hocc]
      constructor
      · intro h
        exact absurd h (by simp)
      · intro h
        exact absurd (h q0 (Nat.le_refl _) (by omega)) hocc

theorem subscribeScanF_ret {occ : Nat → Bool} :
    ∀ {fuel q0 q : Nat}, q0 ≤ q → q ≤ q0 + fuel → occ q = false →
      (∀ j, q0 ≤ j → j < q → occ j = true) → subscribeScanF occ q0 fuel = some q := by
  intro fuel
  induction fuel with
  | zero =>
    intro q0 q h1 h2 h3 _
    have : q = q0 := by omega
    subst this
    rw [subscribeScanF, if_neg (by simp [h3])]
  | succ fuel ih =>
    intro q0 q h1 h2 h3 h4
    rcases Nat.eq_or_lt_of_le h1 with rfl | hlt
    · rw [subscribeScanF, if_neg (by simp [h3])]
    · rw [subscribeScanF, if_pos (h4 q0 (Nat.le_refl _) hlt)]
      exact ih (by omega) (by omega) h3 (fun j hj1 hj2 => h4 j (by omega) hj2)

/-! ### The registry invariant -/

/-- Invariant of every reachable registry state: qids are duplicate-free
and drawn from `[0, max)`, channel tokens are duplicate-free and below the
fresh counter, and a closed channel is never in the registry. -/
structure Inv (max : Nat) (m : Mux) : Prop where
  keysNodup : (m.clients.map Prod.fst).Nodup
  keysLt : ∀ k ∈ m.clients.map Prod.fst, k < max
  chansNodup : (m.clients.map Prod.snd).Nodup
  chansLt : ∀ c ∈ m.clients.map Prod.snd, c < m.nextCh
  closedLt : ∀ c ∈ m.closed, c < m.nextCh
  closedDisj : ∀ c ∈ m.closed, c ∉ m.clients.map Prod.snd

theorem inv_mux0 (max : Nat) : Inv max mux0 := by
  constructor <;> simp [mux0]

theorem subscribe_inv {max : Nat} {m : Mux} (hmax : 0 < max) (hInv : Inv max m) :
    Inv max (subscribe max m).2 := by
  cases hscan : subscribeScan max (fun q => (m.clients.lookup q).isSome) with
  | none =>
    have h2 : (subscribe max m).2 = m := by
      unfold subscribe
      rw [hscan]
    rw [h2]
    exact hInv
  | some q =>
    have h2 : (subscribe max m).2 =
        { m with clients := (q, m.nextCh) :: m.clients, nextCh := m.nextCh + 1 } := by
      unfold subscribe
      rw [hscan]
    rw [h2]
    obtain ⟨-, hle, hocc, -⟩ := subscribeScanF_some hscan
    have hq : q ∉ m.clients.map Prod.fst := by
      rw [← lookup_isSome_iff]
      simp [hocc]
    refine ⟨?_, ?_, ?_, ?_, ?_, ?_⟩ <;> dsimp only
    · exact List.nodup_cons.2 ⟨hq, hInv.keysNodup⟩
    · intro k hk
      rcases List.mem_cons.1 hk with rfl | hk
      · omega
      · exact hInv.keysLt k hk
    · refine List.nodup_cons.2 ⟨?_, hInv.chansNodup⟩
      intro hmem
      exact absurd (hInv.chansLt _ hmem) (by omega)
    · intro c hc
      rcases List.mem_cons.1 hc with rfl | hc
      · omega
      · have := hInv.chansLt c hc
        omega
    · intro c hc
      have := hInv.closedLt c hc
      omega
    · intro c hc
      have h1 := hInv.closedDisj c hc
      have h2 := hInv.closedLt c hc
      intro hmem
      rcases List.mem_cons.1 hmem with rfl | hmem
      · omega
      · exact h1 hmem

/-! ### Lookup after filtering a key out -/

theorem lookup_filter_key_self {l : List (Nat × Nat)} {q : Nat} :
    (l.filter (fun p => p.1 != q)).lookup q = none := by
  rw [lookup_eq_none_iff]
  intro hmem
  obtain ⟨p, hp, hq⟩ := List.mem_map.1 hmem
  have h2 := (List.mem_filter.1 hp).2
  rw [bne_iff_ne] at h2
  exact h2 hq

theorem lookup_none_filter {l : List (Nat × Nat)} {pred : Nat × Nat → Bool} {q : Nat}
    (h : l.lookup q = none) : (l.filter pred).lookup q = none := by
  rw [lookup_eq_none_iff] at h ⊢
  intro hmem
  obtain ⟨p, hp, hq⟩ := List.mem_map.1 hmem
  exact h (List.mem_map.2 ⟨p, (List.mem_filter.1 hp).1, hq⟩)

/-- Eviction (`close(m.clients[br.qid]); delete(m.clients, br.qid)`)
preserves the registry invariant. -/
theorem evict_inv {max : Nat} {m : Mux} {rq rch : Nat} (hInv : Inv max m)
    (hl : m.clients.lookup rq = some rch) :
    Inv max ({ m with
      clients := m.clients.filter (fun p => p.1 != rq)
      closed := rch :: m.closed }) := by
  have hmem := lookup_mem hl
  have hsub : (m.clients.filter (fun p => p.1 != rq)).Sublist m.clients :=
    List.filter_sublist m.clients
  refine ⟨?_, ?_, ?_, ?_, ?_, ?_⟩
  · exact hInv.keysNodup.sublist (hsub.map Prod.fst)
  · intro k hk
    obtain ⟨p, hp, hq⟩ := List.mem_map.1 hk
    exact hInv.keysLt k (List.mem_map.2 ⟨p, hsub.mem hp, hq⟩)
  · exact hInv.chansNodup.sublist (hsub.map Prod.snd)
  · intro c hc
    obtain ⟨p, hp, hq⟩ := List.mem_map.1 hc
    exact hInv.chansLt c (List.mem_map.2 ⟨p, hsub.mem hp, hq⟩)
  · intro c hc
    rcases List.mem_cons.1 hc with rfl | hc
    · exact hInv.chansLt c (List.mem_map.2 ⟨(rq, c), hmem, rfl⟩)
    · exact hInv.closedLt c hc
  · intro c hc hcmem
    obtain ⟨p, hp, hq⟩ := List.mem_map.1 hcmem
    rcases List.mem_cons.1 hc with rfl | hc
    · have hne := (List.mem_filter.1 hp).2
      rw [bne_iff_ne] at hne
      have hpl := (List.mem_filter.1 hp).1
      have hpeq : (p.1, c) = p := by
        rw [← hq]
      have hkey : p.1 = rq :=
        snd_nodup_key_eq hInv.chansNodup (by rw [hpeq]; exact hpl) hmem
      exact hne hkey
    · exact hInv.closedDisj c hc (List.mem_map.2 ⟨p, (List.mem_filter.1 hp).1, hq⟩)

/-- Facts about one fan-out round: the invariant is preserved, the channel
counter is untouched, closed channels and absent qids stay so, no frame is
sent to an already-closed channel, and every eviction recorded in the
trace leaves the qid absent and its channel closed. -/
theorem roundGo_facts {max : Nat} {reports : Nat → Nat × Bool} {frame : Nat} :
    ∀ (snap : List (Nat × Nat)) (m : Mux) (ri : Nat) {m2 : Mux} {evs : List Ev} {ri2 : Nat},
      Inv max m → roundGo reports frame snap m ri = some (m2, evs, ri2) →
      Inv max m2 ∧ m2.nextCh = m.nextCh ∧
      (∀ c ∈ m.closed, c ∈ m2.closed) ∧
      (∀ q, m.clients.lookup q = none → m2.clients.lookup q = none) ∧
      (∀ c ∈ m.closed, ∀ f, Ev.sent c f ∉ evs) ∧
      (∀ q ch, Ev.evicted q ch ∈ evs → ch ∈ m2.closed ∧ m2.clients.lookup q = none) := by
  intro snap
  induction snap with
  | nil =>
    intro m ri m2 evs ri2 hInv h
    rw [roundGo] at h
    simp only [Option.some.injEq, Prod.mk.injEq] at h
    obtain ⟨rfl, rfl, rfl⟩ := h
    refine ⟨hInv, rfl, fun c hc => hc, fun q hq => hq, ?_, ?_⟩
    · intro c _ f hf
      simp at hf
    · intro q ch hev
      simp at hev
  | cons p rest ih =>
    obtain ⟨q, ch0⟩ := p
    intro m ri m2 evs ri2 hInv h
    rw [roundGo] at h
    split at h
    next hlq =>
      exact ih m ri hInv h
    next ch hlq =>
      have hchm : ch ∈ m.clients.map Prod.snd :=
        List.mem_map_of_mem Prod.snd (lookup_mem hlq)
      by_cases hrep : (reports ri).2 = true
      · rw [if_pos hrep] at h
        split at h
        next hlr =>
          simp at h
        next rch hlr =>
          split at h
          next hrec =>
            simp at h
          next m2x evsx ri2x hrec =>
            simp only [Option.some.injEq, Prod.mk.injEq] at h
            obtain ⟨rfl, rfl, rfl⟩ := h
            have hInv1 := evict_inv hInv hlr
            obtain ⟨i1, i2, i3, i4, i5, i6⟩ := ih _ (ri + 1) hInv1 hrec
            refine ⟨i1, i2, ?_, ?_, ?_, ?_⟩
            · intro c hc
              exact i3 c (List.mem_cons.2 (Or.inr hc))
            · intro q1 hq1
              exact i4 q1 (lookup_none_filter hq1)
            · intro c hc f hf
              simp only [List.mem_cons] at hf
              rcases hf with h1 | h1 | h1 | h1
              · injection h1 with hc1 hc2
                subst hc1
                exact hInv.closedDisj c hc hchm
              · cases h1
              · cases h1
              · exact i5 c (List.mem_cons.2 (Or.inr hc)) f h1
            · intro q1 ch1 hev
              simp only [List.mem_cons] at hev
              rcases hev with h1 | h1 | h1 | h1
              · cases h1
              · cases h1
              · injection h1 with hq1 hc1
                subst hq1
                subst hc1
                refine ⟨i3 ch1 (List.mem_cons.2 (Or.inl rfl)), ?_⟩
                exact i4 (reports ri).1 lookup_filter_key_self
              · exact i6 q1 ch1 h1
      · rw [if_neg hrep] at h
        split at h
        next hrec =>
          simp at h
        next m2x evsx ri2x hrec =>
          simp only [Option.some.injEq, Prod.mk.injEq] at h
          obtain ⟨rfl, rfl, rfl⟩ := h
          obtain ⟨i1, i2, i3, i4, i5, i6⟩ := ih m (ri + 1) hInv hrec
          refine ⟨i1, i2, i3, i4, ?_, ?_⟩
          · intro c hc f hf
            simp only [List.mem_cons] at hf
            rcases hf with h1 | h1 | h1
            · injection h1 with hc1 hc2
              subst hc1
              exact hInv.closedDisj c hc hchm
            · cases h1
            · exact i5 c hc f h1
          · intro q1 ch1 hev
            simp only [List.mem_cons] at hev
            rcases hev with h1 | h1 | h1
            · cases h1
            · cases h1
            · exact i6 q1 ch1 h1

theorem subscribe_closed (max : Nat) (m : Mux) : (subscribe max m).2.closed = m.closed := by
  unfold subscribe
  cases subscribeScan max (fun q => (m.clients.lookup q).isSome) <;> rfl

theorem step_facts {max : Nat} {m : Mux} {op : MuxOp} {m1 : Mux} {evs : List Ev}
    (hmax : 0 < max) (hInv : Inv max m) (h : step max m op = some (m1, evs)) :
    Inv max m1 ∧ (∀ c ∈ m.closed, c ∈ m1.closed) ∧
    (∀ c ∈ m.closed, ∀ f, Ev.sent c f ∉ evs) ∧
    (∀ q ch, Ev.evicted q ch ∈ evs → ch ∈ m1.closed) := by
  cases op with
  | subscribe =>
    rw [step] at h
    simp only [Option.some.injEq, Prod.mk.injEq] at h
    obtain ⟨rfl, rfl⟩ := h
    refine ⟨subscribe_inv hmax hInv, ?_, ?_, ?_⟩
    · intro c hc
      rw [subscribe_closed]
      exact hc
    · intro c _ f hf
      simp at hf
    · intro q ch hev
      simp at hev
  | broadcast frame reports =>
    rw [step] at h
    split at h
    next hrec =>
      simp at h
    next m2x evsx ri2x hrec =>
      simp only [Option.some.injEq, Prod.mk.injEq] at h
      obtain ⟨rfl, rfl⟩ := h
      obtain ⟨i1, -, i3, -, i5, i6⟩ := roundGo_facts m.clients m 0 hInv hrec
      exact ⟨i1, i3, i5, fun q ch hev => (i6 q ch hev).1⟩

theorem run_facts {max : Nat} (hmax : 0 < max) :
    ∀ (ops : List MuxOp) (m : Mux) {m2 : Mux} {evs : List Ev},
      Inv max m → run max m ops = some (m2, evs) →
      Inv max m2 ∧ (∀ c ∈ m.closed, c ∈ m2.closed) ∧
      (∀ c ∈ m.closed, ∀ f, Ev.sent c f ∉ evs) ∧
      (∀ q ch, Ev.evicted q ch ∈ evs → ch ∈ m2.closed) := by
  intro ops
  induction ops with
  | nil =>
    intro m m2 evs hInv h
    rw [run] at h
    simp only [Option.some.injEq, Prod.mk.injEq] at h
    obtain ⟨rfl, rfl⟩ := h
    refine ⟨hInv, fun c hc => hc, ?_, ?_⟩
    · intro c _ f hf
      simp at hf
    · intro q ch hev
      simp at hev
  | cons op ops ih =>
    intro m m2 evs hInv h
    rw [run] at h
    split at h
    next hstep =>
      simp at h
    next ma evsa hstep =>
      split at h
      next hrun =>
        simp at h
      next mb evsb hrun =>
        simp only [Option.some.injEq, Prod.mk.injEq] at h
        obtain ⟨rfl, rfl⟩ := h
        obtain ⟨s1, s2, s3, s4⟩ := step_facts hmax hInv hstep
        obtain ⟨r1, r2, r3, r4⟩ := ih ma s1 hrun
        refine ⟨r1, fun c hc => r2 c (s2 c hc), ?_, ?_⟩
        · intro c hc f hf
          rcases List.mem_append.1 hf with h1 | h1
          · exact s3 c hc f h1
          · exact r3 c (s2 c hc) f h1
        · intro q ch hev
          rcases List.mem_append.1 hev with h1 | h1
          · exact r2 ch (s4 q ch h1)
          · exact r4 q ch h1

/-- C1: over every sequence of subscribe/evict operations starting from
the empty registry, a successful `subscribe` returns the smallest id that
is in `[0, maxConnections)` and not currently mapped to any subscribed
endpoint. -/
theorem subscribe_smallest_free (max : Nat) (hmax : 0 < max) (ops : List MuxOp)
    (m : Mux) (evs : List Ev) (hrun : run max mux0 ops = some (m, evs))
    (q : Nat) (hq : (subscribe max m).1 = some q) :
    q < max ∧ m.clients.lookup q = none ∧
      ∀ j, j < q → (m.clients.lookup j).isSome = true := by
  have hscan : subscribeScan max (fun j => (m.clients.lookup j).isSome) = some q := by
    rw [subscribe] at hq
    split at hq
    next hs =>
      simp at hq
    next q1 hs =>
      simp only at hq
      injection hq with hq
      rw [hs, hq]
  rw [subscribeScan] at hscan
  obtain ⟨-, hle, hocc, hall⟩ := subscribeScanF_some hscan
  refine ⟨by omega, ?_, ?_⟩
  · cases hl : m.clients.lookup q with
    | none => rfl
    | some v =>
      rw [hl] at hocc
      simp at hocc
  · intro j hj
    have := hall j (Nat.zero_le _) hj
    simpa using this

/-- C1 witness: after one subscribe and then another from the empty
two-slot registry, the second subscribe returns id 1, the smallest free
id: 1 is below the maximum, unmapped, and id 0 below it is occupied. -/
theorem subscribe_smallest_free_witness :
    1 < 2 ∧ (subscribe 2 mux0).2.clients.lookup 1 = none ∧
      ((subscribe 2 mux0).2.clients.lookup 0).isSome = true := by
  have h := subscribe_smallest_free 2 (by decide) [MuxOp.subscribe] (subscribe 2 mux0).2 []
    (by decide) 1 (by decide)
  exact ⟨h.1, h.2.1, h.2.2 0 (by decide)⟩

/-- C2 counterexample: with `maxConnections = 2` and exactly one id
(`maxConnections - 1` ids) occupied, the claim predicts `subscribe` must
fail, but it succeeds (it fails only once all `maxConnections` ids are
taken). -/
theorem subscribe_maxMinusOne_cex :
    ((subscribe 2 mux0).2.clients.length = 2 - 1) ∧
      (subscribe 2 (subscribe 2 mux0).2).1 ≠ none := by decide

/-- C2 (amended): over every reachable registry, `subscribe` returns the
failure sentinel iff all `maxConnections` ids are occupied (exactly
`maxConnections` distinct ids, not `maxConnections - 1`); otherwise it
installs the endpoint under the returned id (paired with the shared
outcome-report queue). -/
theorem subscribe_fails_iff (max : Nat) (hmax : 0 < max) (ops : List MuxOp)
    (m : Mux) (evs : List Ev) (hrun : run max mux0 ops = some (m, evs)) :
    ((subscribe max m).1 = none ↔ m.clients.length = max)
    ∧ (∀ q, (subscribe max m).1 = some q →
        (subscribe max m).2.clients.lookup q = some m.nextCh) := by
  have hInv : Inv max m := (run_facts hmax ops mux0 (inv_mux0 max) hrun).1
  have hkeys : (m.clients.map Prod.fst).length = m.clients.length := List.length_map _ _
  constructor
  · constructor
    · intro hnone
      have hscan : subscribeScan max (fun j => (m.clients.lookup j).isSome) = none := by
        rw [subscribe] at hnone
        split at hnone
        next hs => exact hs
        next q1 hs => simp at hnone
      rw [subscribeScan] at hscan
      have hocc := subscribeScanF_none.1 hscan
      have hmem : ∀ j, j < max → j ∈ m.clients.map Prod.fst := by
        intro j hj
        rw [← lookup_isSome_iff]
        have := hocc j (Nat.zero_le _) (by omega)
        simpa using this
      have hfin : (m.clients.map Prod.fst).toFinset = Finset.range max := by
        apply Finset.Subset.antisymm
        · intro k hk
          rw [List.mem_toFinset] at hk
          rw [Finset.mem_range]
          exact hInv.keysLt k hk
        · intro k hk
          rw [Finset.mem_range] at hk
          rw [List.mem_toFinset]
          exact hmem k hk
      have hlen : (m.clients.map Prod.fst).toFinset.card = (m.clients.map Prod.fst).length :=
        List.toFinset_card_of_nodup hInv.keysNodup
      rw [hfin, Finset.card_range] at hlen
      omega
    · intro hlen
      have hocc : ∀ j, j < max → (m.clients.lookup j).isSome = true := by
        intro j hj
        by_contra hcon
        have hnotmem : j ∉ m.clients.map Prod.fst := by
          rw [← lookup_isSome_iff]
          exact hcon
        have hsub : (m.clients.map Prod.fst).toFinset ⊆ (Finset.range max).erase j := by
          intro k hk
          rw [List.mem_toFinset] at hk
          rw [Finset.mem_erase, Finset.mem_range]
          refine ⟨?_, hInv.keysLt k hk⟩
          intro hkj
          rw [hkj] at hk
          exact hnotmem hk
        have hcard := Finset.card_le_card hsub
        rw [List.toFinset_card_of_nodup hInv.keysNodup] at hcard
        rw [Finset.card_erase_of_mem (Finset.mem_range.2 hj), Finset.card_range] at hcard
        omega
      have hscan : subscribeScan max (fun j => (m.clients.lookup j).isSome) = none := by
        rw [subscribeScan]
        apply subscribeScanF_none.2
        intro j hj1 hj2
        exact hocc j (by omega)
      rw [subscribe, hscan]
  · intro q hq
    have hscan : subscribeScan max (fun j => (m.clients.lookup j).isSome) = some q := by
      rw [subscribe] at hq
      split at hq
      next hs => simp at hq
      next q1 hs =>
        simp only at hq
        injection hq with hq
        rw [hs, hq]
    rw [subscribe, hscan]
    simp

/-- C2 witness: with `maxConnections = 1` both directions are exercised:
the empty registry admits a subscription installed under id 0, and the
resulting full registry (1 = maxConnections occupied ids) rejects the
next one. -/
theorem subscribe_fails_iff_witness :
    ((subscribe 1 mux0).1 = none ↔ mux0.clients.length = 1) ∧
    ((subscribe 1 mux0).2.clients.lookup 0 = some mux0.nextCh) ∧
    ((subscribe 1 (subscribe 1 mux0).2).1 = none
      ↔ (subscribe 1 mux0).2.clients.length = 1) := by
  have h1 := subscribe_fails_iff 1 (by decide) [] mux0 [] (by decide)
  have h2 := subscribe_fails_iff 1 (by decide) [MuxOp.subscribe] (subscribe 1 mux0).2 []
    (by decide)
  exact ⟨h1.1, h1.2 0 (by decide), h2.1⟩

/-- The per-frame fan-out discipline stated by the specification: sends
happen one endpoint at a time; each send is followed by the consumption of
exactly one outcome report before the next send; a failure report is
followed, before fan-out continues, by the eviction of the endpoint the
report names. -/
inductive FanoutOK : List Ev → Prop where
  | nil : FanoutOK []
  | ack (ch frame rq : Nat) {t : List Ev} (ht : FanoutOK t) :
      FanoutOK (Ev.sent ch frame :: Ev.received rq false :: t)
  | nack (ch frame rq rch : Nat) {t : List Ev} (ht : FanoutOK t) :
      FanoutOK (Ev.sent ch frame :: Ev.received rq true :: Ev.evicted rq rch :: t)

theorem roundGo_fanoutOK {reports : Nat → Nat × Bool} {frame : Nat} :
    ∀ (snap : List (Nat × Nat)) (m : Mux) (ri : Nat) {m2 : Mux} {evs : List Ev} {ri2 : Nat},
      roundGo reports frame snap m ri = some (m2, evs, ri2) → FanoutOK evs := by
  intro snap
  induction snap with
  | nil =>
    intro m ri m2 evs ri2 h
    rw [roundGo] at h
    simp only [Option.some.injEq, Prod.mk.injEq] at h
    obtain ⟨rfl, rfl, rfl⟩ := h
    exact FanoutOK.nil
  | cons p rest ih =>
    obtain ⟨q, ch0⟩ := p
    intro m ri m2 evs ri2 h
    rw [roundGo] at h
    split at h
    next hlq =>
      exact ih m ri h
    next ch hlq =>
      by_cases hrep : (reports ri).2 = true
      · rw [if_pos hrep] at h
        split at h
        next hlr =>
          simp at h
        next rch hlr =>
          split at h
          next hrec =>
            simp at h
          next m2x evsx ri2x hrec =>
            simp only [Option.some.injEq, Prod.mk.injEq] at h
            obtain ⟨rfl, rfl, rfl⟩ := h
            exact FanoutOK.nack ch frame (reports ri).1 rch (ih _ (ri + 1) hrec)
      · rw [if_neg hrep] at h
        split at h
        next hrec =>
          simp at h
        next m2x evsx ri2x hrec =>
          simp only [Option.some.injEq, Prod.mk.injEq] at h
          obtain ⟨rfl, rfl, rfl⟩ := h
          exact FanoutOK.ack ch frame (reports ri).1 (ih m (ri + 1) hrec)

/-- C5: every fan-out round of a single frame follows the serialized
send/report discipline (`FanoutOK`), and every eviction it performs leaves
the named endpoint's id out of the registry and its queue closed before
the round ends. -/
theorem broadcast_fanout (max : Nat) (m : Mux) (frame : Nat) (reports : Nat → Nat × Bool)
    (m2 : Mux) (evs : List Ev) (hInv : Inv max m)
    (h : step max m (MuxOp.broadcast frame reports) = some (m2, evs)) :
    FanoutOK evs ∧
      ∀ q ch, Ev.evicted q ch ∈ evs → ch ∈ m2.closed ∧ m2.clients.lookup q = none := by
  rw [step] at h
  split at h
  next hrec =>
    simp at h
  next m2x evsx ri2x hrec =>
    simp only [Option.some.injEq, Prod.mk.injEq] at h
    obtain ⟨rfl, rfl⟩ := h
    exact ⟨roundGo_fanoutOK m.clients m 0 hrec,
      fun q ch hev => (roundGo_facts m.clients m 0 hInv hrec).2.2.2.2.2 q ch hev⟩

/-- C6: an endpoint that reported failure and was evicted never receives
another frame on its (closed) queue in any later state, its id is removed
by the evicting round itself, and it is returned by the very next
`subscribe` as soon as it is the smallest free id. -/
theorem evicted_endpoint_final (max : Nat) (hmax : 0 < max)
    (ops1 : List MuxOp) (m1 : Mux) (evs1 : List Ev)
    (h1 : run max mux0 ops1 = some (m1, evs1)) (q ch : Nat) :
    (Ev.evicted q ch ∈ evs1 →
      ch ∈ m1.closed ∧
      ∀ ops2 m2 evs2, run max m1 ops2 = some (m2, evs2) → ∀ f, Ev.sent ch f ∉ evs2)
    ∧ (∀ frame reports mb evsb,
        step max m1 (MuxOp.broadcast frame reports) = some (mb, evsb) →
        Ev.evicted q ch ∈ evsb → mb.clients.lookup q = none)
    ∧ (m1.clients.lookup q = none → q < max →
        (∀ j, j < q → (m1.clients.lookup j).isSome = true) →
        (subscribe max m1).1 = some q) := by
  obtain ⟨hInv1, -, -, hcl⟩ := run_facts hmax ops1 mux0 (inv_mux0 max) h1
  refine ⟨?_, ?_, ?_⟩
  · intro hev
    have hch : ch ∈ m1.closed := hcl q ch hev
    refine ⟨hch, ?_⟩
    intro ops2 m2 evs2 h2 f
    exact (run_facts hmax ops2 m1 hInv1 h2).2.2.1 ch hch f
  · intro frame reports mb evsb hstep hev
    rw [step] at hstep
    split at hstep
    next hrec =>
      simp at hstep
    next m2x evsx ri2x hrec =>
      simp only [Option.some.injEq, Prod.mk.injEq] at hstep
      obtain ⟨rfl, rfl⟩ := hstep
      exact ((roundGo_facts m1.clients m1 0 hInv1 hrec).2.2.2.2.2 q ch hev).2
  · intro hfree hqmax hbelow
    have hscan : subscribeScan max (fun j => (m1.clients.lookup j).isSome) = some q := by
      rw [subscribeScan]
      apply subscribeScanF_ret (Nat.zero_le _) (by omega)
      · simp [hfree]
      · intro j hj1 hj2
        exact hbelow j hj2
    rw [subscribe, hscan]

/-- C5 witness: a concrete two-endpoint round in which the first endpoint
acknowledges and the second fails and is evicted. -/
theorem broadcast_fanout_witness :
    FanoutOK [Ev.sent 10 99, Ev.received 0 false, Ev.sent 11 99, Ev.received 1 true,
      Ev.evicted 1 11] ∧
    (11 ∈ ({ clients := [(0, 10)], nextCh := 12, closed := [11] } : Mux).closed ∧
      ({ clients := [(0, 10)], nextCh := 12, closed := [11] } : Mux).clients.lookup 1
        = none) := by
  have h := broadcast_fanout 3 { clients := [(0, 10), (1, 11)], nextCh := 12, closed := [] }
    99 (fun ri => if ri = 0 then (0, false) else (1, true))
    { clients := [(0, 10)], nextCh := 12, closed := [11] }
    [Ev.sent 10 99, Ev.received 0 false, Ev.sent 11 99, Ev.received 1 true, Ev.evicted 1 11]
    (by refine ⟨?_, ?_, ?_, ?_, ?_, ?_⟩ <;> decide) (by decide)
  exact ⟨h.1, h.2 1 11 (by decide)⟩

/-- C6 witness: after a broadcast that evicts endpoint 0 (channel token 0),
the channel is closed and the very next subscribe returns id 0 again. -/
theorem evicted_endpoint_final_witness :
    (0 : Nat) ∈ ({ clients := [], nextCh := 1, closed := [0] } : Mux).closed ∧
    (subscribe 2 { clients := [], nextCh := 1, closed := [0] }).1 = some 0 := by
  have h := evicted_endpoint_final 2 (by decide)
    [MuxOp.subscribe, MuxOp.broadcast 7 (fun _ => (0, true))]
    { clients := [], nextCh := 1, closed := [0] }
    [Ev.sent 0 7, Ev.received 0 true, Ev.evicted 0 0] (by decide) 0 0
  exact ⟨(h.1 (by decide)).1, h.2.2 (by decide) (by decide) (fun j hj => absurd hj (by omega))⟩

/-! ## Frame pacing (the decode goroutine of `(*mux).start`) -/

/-- One second in nanoseconds (`1 * time.Second`). -/
def oneSecond : Int := 1000000000

/-- The pacing state machine of the decode goroutine:
`towait := f.Duration() - time.Now().Sub(t0); cumwait += towait;
if cumwait > 1*time.Second { time.Sleep(cumwait); cumwait = 0 }`.
A frame is a pair `(duration, cost)`: its intrinsic playback duration and
the measured wall-clock cost of producing it, in nanoseconds (their
difference may be negative).  Returns the final accumulator and the
chronological list of sleep durations performed. -/
def paceRun : Int → List (Int × Int) → Int × List Int
  | cumwait, [] => (cumwait, [])
  | cumwait, (d, c) :: rest =>
    if oneSecond < cumwait + (d - c) then
      match paceRun 0 rest with
      | (cfin, sleeps) => (cfin, (cumwait + (d - c)) :: sleeps)
    else paceRun (cumwait + (d - c)) rest

/-- The pacing algorithm exactly as the specification words it: per frame
the slack `duration - cost` is added to the running accumulator (which may
go negative); whenever the accumulator exceeds one second the pipeline
sleeps for the accumulated amount and resets the accumulator to exactly
zero; otherwise no sleep happens. -/
inductive PacingSpec : Int → List (Int × Int) → List Int → Int → Prop where
  | nil (a : Int) : PacingSpec a [] [] a
  | sleep {a d c afin : Int} {rest : List (Int × Int)} {sl : List Int}
      (hgt : oneSecond < a + (d - c)) (h : PacingSpec 0 rest sl afin) :
      PacingSpec a ((d, c) :: rest) ((a + (d - c)) :: sl) afin
  | skip {a d c afin : Int} {rest : List (Int × Int)} {sl : List Int}
      (hle : a + (d - c) ≤ oneSecond) (h : PacingSpec (a + (d - c)) rest sl afin) :
      PacingSpec a ((d, c) :: rest) sl afin

theorem paceRun_pacingSpec :
    ∀ (frames : List (Int × Int)) (a : Int),
      PacingSpec a frames (paceRun a frames).2 (paceRun a frames).1 ∧
      (∀ s ∈ (paceRun a frames).2, oneSecond < s) ∧
      (a ≤ oneSecond → (paceRun a frames).1 ≤ oneSecond) := by
  intro frames
  induction frames with
  | nil =>
    intro a
    rw [paceRun]
    exact ⟨PacingSpec.nil a, by simp, fun h => h⟩
  | cons f rest ih =>
    obtain ⟨d, c⟩ := f
    intro a
    rw [paceRun]
    by_cases hgt : oneSecond < a + (d - c)
    · rw [if_pos hgt]
      obtain ⟨ih1, ih2, ih3⟩ := ih 0
      cases hrec : paceRun 0 rest with
      | mk cfin sleeps =>
        rw [hrec] at ih1 ih2 ih3
        dsimp only
        refine ⟨PacingSpec.sleep hgt ih1, ?_, fun _ => ih3 (by unfold oneSecond; omega)⟩
        intro s hs
        rcases List.mem_cons.1 hs with rfl | hs
        · exact hgt
        · exact ih2 s hs
    · rw [if_neg hgt]
      obtain ⟨ih1, ih2, ih3⟩ := ih (a + (d - c))
      exact ⟨PacingSpec.skip (by omega) ih1, ih2, fun _ => ih3 (by omega)⟩

/-- C4: for every sequence of decoded frames the pacing loop realizes the
specified algorithm: slack accumulates (possibly negative), a sleep of
exactly the accumulated amount happens whenever it exceeds one second
(resetting the accumulator to zero), every sleep performed exceeds one
second, and the accumulator never ends above one second when it started
at zero — so no sleep occurs while it is at or below one second. -/
theorem pacing_follows_spec (frames : List (Int × Int)) :
    PacingSpec 0 frames (paceRun 0 frames).2 (paceRun 0 frames).1 ∧
    (∀ s ∈ (paceRun 0 frames).2, oneSecond < s) ∧
    (paceRun 0 frames).1 ≤ oneSecond := by
  obtain ⟨h1, h2, h3⟩ := paceRun_pacingSpec frames 0
  exact ⟨h1, h2, h3 (by unfold oneSecond; omega)⟩

/-- C4 witness: a single 2-second frame produced in 0.5 seconds makes the
accumulator reach 1.5 seconds, so the loop sleeps exactly 1.5 seconds and
resets to zero. -/
theorem pacing_follows_spec_witness :
    PacingSpec 0 [((2000000000 : Int), 500000000)] [1500000000] 0 ∧
      oneSecond < (1500000000 : Int) := by
  have h := pacing_follows_spec [((2000000000 : Int), 500000000)]
  have he : paceRun 0 [((2000000000 : Int), 500000000)] = (0, [1500000000]) := by decide
  rw [he] at h
  exact ⟨h.1, h.2.1 1500000000 (by decide)⟩

/-! ## Discovery and shuffling (the scan and shuffle goroutines of
`(*mux).start`) -/

/-- One visit record produced by `filepath.Walk`: the path, the file's base
name, whether the callback was invoked with a non-nil error for this
entry, and the `IsRegular` / `IsDir` mode bits. -/
structure WalkEntry where
  path : List Char
  name : List Char
  walkErr : Bool
  isRegular : Bool
  isDir : Bool
deriving Repr, DecidableEq

/-- The suffix test `strings.HasSuffix(strings.ToLower(info.Name()), ".mp3")`. -/
def hasMp3Suffix (name : List Char) : Bool :=
  List.isSuffixOf ['.', 'm', 'p', '3'] (name.map Char.toLower)

/-- The walk callback of the scan goroutine: an errored entry is skipped
(the callback returns nil, so the walk continues over the rest of the
tree), non-regular entries are skipped, and an entry that is neither a
directory nor suffix-matching is skipped; the remaining entries are sent
on the `files` channel. -/
def walkEmit (e : WalkEntry) : Bool :=
  if e.walkErr then false
  else if !e.isRegular then false
  else if !e.isDir && !(hasMp3Suffix e.name) then false
  else true

/-- The paths one `filepath.Walk` pass sends down the `files` channel. -/
def walkFiles (entries : List WalkEntry) : List (List Char) :=
  (entries.filter walkEmit).map WalkEntry.path

/-- The reservoir insertion of the shuffle goroutine's `default:` arm:
`shuffled = append(shuffled, shuffled[i]); shuffled[i] = f` with
`i := rand.Intn(len(shuffled))`. -/
def shuffleInsert (shuffled : List (List Char)) (i : Nat) (f : List Char) :
    List (List Char) :=
  (shuffled ++ [shuffled.getD i []]).set i f

/-- The shuffle goroutine's receive loop.  The other `select` arm,
`case <-time.After(100 * time.Millisecond)`, creates a fresh timer on each
iteration; with a `default` arm present a `select` never blocks, so the
timer arm (which is never immediately ready) is never chosen and every
received file goes into the reservoir.  `rng k` is the k-th value drawn
from `rand.Intn` (reduced modulo the reservoir length at use). -/
def shuffleAll (rng : Nat → Nat) :
    Nat → List (List Char) → List (List Char) → List (List Char)
  | _, acc, [] => acc
  | k, acc, f :: rest =>
    if acc.length = 0 then shuffleAll rng k (acc ++ [f]) rest
    else shuffleAll rng (k + 1) (shuffleInsert acc (rng k % acc.length) f) rest

/-- One complete discovery scan: walk, then buffer-and-shuffle, then emit
the reservoir (`for _, f := range shuffled { nextFile <- f }`). -/
def scanEmit (rng : Nat → Nat) (entries : List WalkEntry) : List (List Char) :=
  shuffleAll rng 0 [] (walkFiles entries)

theorem shuffleInsert_perm :
    ∀ (l : List (List Char)) (i : Nat) (f : List Char), i < l.length →
      List.Perm (shuffleInsert l i f) (f :: l) := by
  intro l
  induction l with
  | nil =>
    intro i f h
    simp at h
  | cons a t ih =>
    intro i f h
    cases i with
    | zero =>
      simp only [shuffleInsert, List.getD_cons_zero, List.cons_append, List.set_cons_zero]
      exact List.Perm.cons f (List.perm_append_singleton a t)
    | succ i =>
      simp only [shuffleInsert, List.getD_cons_succ, List.cons_append, List.set_cons_succ]
      have hi : i < t.length := by simpa using h
      exact (List.Perm.cons a (ih i f hi)).trans (List.Perm.swap f a t)

theorem shuffleAll_perm (rng : Nat → Nat) :
    ∀ (rest acc : List (List Char)) (k : Nat),
      List.Perm (shuffleAll rng k acc rest) (acc ++ rest) := by
  intro rest
  induction rest with
  | nil =>
    intro acc k
    rw [shuffleAll]
    simp
  | cons f rest ih =>
    intro acc k
    rw [shuffleAll]
    by_cases hlen : acc.length = 0
    · rw [if_pos hlen]
      rw [List.length_eq_zero] at hlen
      subst hlen
      simpa using ih [f] k
    · rw [if_neg hlen]
      have hi : rng k % acc.length < acc.length := Nat.mod_lt _ (by omega)
      have h1 := ih (shuffleInsert acc (rng k % acc.length) f) (k + 1)
      have h2 : List.Perm (shuffleInsert acc (rng k % acc.length) f ++ rest)
          ((f :: acc) ++ rest) :=
        (shuffleInsert_perm acc _ f hi).append_right rest
      refine (h1.trans h2).trans ?_
      simpa using List.perm_middle.symm

/-- C7: the multiset of paths emitted to the play queue by one complete
discovery scan is exactly the set of visited regular files whose
lowercased name ends in `.mp3` (each exactly once); an errored subtree
entry only drops itself, never other matching files. -/
theorem scan_emits_each_once (rng : Nat → Nat) (entries : List WalkEntry)
    (hwf : ∀ e ∈ entries, e.isRegular = true → e.isDir = false) :
    List.Perm (scanEmit rng entries)
      ((entries.filter
          (fun e => !e.walkErr && e.isRegular && hasMp3Suffix e.name)).map WalkEntry.path) := by
  have hfilter : entries.filter walkEmit =
      entries.filter (fun e => !e.walkErr && e.isRegular && hasMp3Suffix e.name) := by
    apply List.filter_congr
    intro e he
    have hrd := hwf e he
    cases hwe : e.walkErr <;> cases hr : e.isRegular <;> cases hd : e.isDir <;>
      cases hs : hasMp3Suffix e.name <;>
        simp_all [walkEmit]
  have h1 := shuffleAll_perm rng (walkFiles entries) [] 0
  rw [scanEmit]
  refine h1.trans ?_
  rw [walkFiles, hfilter]
  simp

/-- C7 witness: a concrete scan over five entries — a matching file with
an uppercase suffix, a directory, an errored entry, a non-matching regular
file and another matching file — emits exactly the two matching paths. -/
theorem scan_emits_each_once_witness :
    List.Perm
      (scanEmit (fun _ => 0)
        [{ path := ['a'], name := ['a', '.', 'M', 'p', '3'], walkErr := false,
           isRegular := true, isDir := false },
         { path := ['d'], name := ['d'], walkErr := false, isRegular := false,
           isDir := true },
         { path := ['e'], name := ['e', '.', 'm', 'p', '3'], walkErr := true,
           isRegular := true, isDir := false },
         { path := ['t'], name := ['t', '.', 't', 'x', 't'], walkErr := false,
           isRegular := true, isDir := false },
         { path := ['b'], name := ['b', '.', 'm', 'p', '3'], walkErr := false,
           isRegular := true, isDir := false }])
      [['a'], ['b']] := by
  have h := scan_emits_each_once (fun _ => 0)
    [{ path := ['a'], name := ['a', '.', 'M', 'p', '3'], walkErr := false,
       isRegular := true, isDir := false },
     { path := ['d'], name := ['d'], walkErr := false, isRegular := false,
       isDir := true },
     { path := ['e'], name := ['e', '.', 'm', 'p', '3'], walkErr := true,
       isRegular := true, isDir := false },
     { path := ['t'], name := ['t', '.', 't', 'x', 't'], walkErr := false,
       isRegular := true, isDir := false },
     { path := ['b'], name := ['b', '.', 'm', 'p', '3'], walkErr := false,
       isRegular := true, isDir := false }] (by decide)
  exact h.trans (by decide)

/-! ## The HTTP session (`streamHandler.ServeHTTP`)

The relevant `net/http` contract (modelled from the library's documented
behaviour; the library is not part of this repository): `w.Header()` is
the map of headers to be sent; `w.WriteHeader(code)` sends the status line
together with a snapshot of that map, and changing the map after
`WriteHeader` (or the first `Write`) has no effect on what is sent; a
`Write` before any `WriteHeader` implies `WriteHeader(200)`; body bytes
are flushed to the client only on an explicit `Flusher.Flush` (or
internal buffering, not modelled). -/

/-- The observable state of a `ResponseWriter`. -/
structure RespWriter where
  pending : List (String × String)
  wrote : Bool
  sentStatus : Option Nat
  sentHeaders : List (String × String)
  body : List Nat
  flushes : Nat
deriving Repr, DecidableEq

def emptyWriter : RespWriter :=
  { pending := [], wrote := false, sentStatus := none, sentHeaders := [], body := [],
    flushes := 0 }

/-- Model of `w.Header().Set(k, v)`. -/
def setHeader (w : RespWriter) (k v : String) : RespWriter :=
  if (w.pending.map Prod.fst).contains k then
    { w with pending := w.pending.map (fun p => if p.1 = k then (k, v) else p) }
  else { w with pending := w.pending ++ [(k, v)] }

/-- Model of `w.WriteHeader(code)`: a second call is a no-op. -/
def writeHeader (w : RespWriter) (code : Nat) : RespWriter :=
  if w.wrote then w
  else { w with wrote := true, sentStatus := some code, sentHeaders := w.pending }

/-- Model of `io.Copy(w, bytes.NewReader(bs))` when the copy succeeds. -/
def writeBody (w : RespWriter) (bs : List Nat) : RespWriter :=
  if w.wrote then { w with body := w.body ++ bs }
  else { w with
    wrote := true
    sentStatus := some 200
    sentHeaders := w.pending
    body := w.body ++ bs }

/-- The five `w.Header().Set` calls of `ServeHTTP`, in source order. -/
def headerCalls (w : RespWriter) (now : String) : RespWriter :=
  setHeader (setHeader (setHeader (setHeader (setHeader w "Date" now)
    "Connection" "Keep-Alive") "Cache-Control" "no-cache") "Content-Type" "audio/mpeg")
    "Server" "BoringStreamer/4.0"

/-- The synthetic minimal ID3 header stub written before the stream. -/
def id3Stub : List Nat := [0x49, 0x44, 0x33, 0x03, 0x00, 0x00, 0x00, 0x00, 0x00, 0x00]

/-- How one frame's `io.Copy` attempt resolved inside the
`select { case err = <-result: ...; case <-time.After(broadcastTimeout): ... }`:
completed without error before the deadline, failed with a write error
before the deadline, or hit the 4-second deadline first. -/
inductive WriteOutcome where
  | ok
  | errWrite
  | timedOut
deriving Repr, DecidableEq

/-- The error carried by a failure report on `br`. -/
inductive RepErr where
  | ioErr
  | timeout
deriving Repr, DecidableEq

def errOf : WriteOutcome → Option RepErr
  | WriteOutcome.ok => none
  | WriteOutcome.errWrite => some RepErr.ioErr
  | WriteOutcome.timedOut => some RepErr.timeout

/-- The per-connection relay loop: receive a frame, attempt the write; on
success send the ack `{qid, nil}` and continue; on a write error or on the
4-second timeout break out and send the single nack `{qid, err}` (with the
timeout error when the deadline fired), then return — no report is ever
sent for a later frame.  A frame that timed out or failed appends nothing
to the modelled body (the orphaned copy's effect is unobservable to the
claims).  An exhausted list means the session is still blocked on
`<-frames` with no further report yet. -/
def sessionLoop (qid : Nat) :
    List (List Nat × WriteOutcome) → RespWriter → RespWriter × List (Nat × Option RepErr)
  | [], w => (w, [])
  | (buf, outc) :: rest, w =>
    match outc with
    | WriteOutcome.ok =>
      match sessionLoop qid rest (writeBody w buf) with
      | (wfin, reps) => (wfin, (qid, none) :: reps)
    | WriteOutcome.errWrite => (w, [(qid, some RepErr.ioErr)])
    | WriteOutcome.timedOut => (w, [(qid, some RepErr.timeout)])

/-- Model of `streamHandler.ServeHTTP`: on a failed subscribe answer 429 and stop;
otherwise `WriteHeader(200)` first, then the five header `Set` calls, then
the 10-byte stub, then the relay loop. -/
def serveHTTP (now : String) (subResult : Option Nat)
    (frames : List (List Nat × WriteOutcome)) : RespWriter × List (Nat × Option RepErr) :=
  match subResult with
  | none => (writeHeader emptyWriter 429, [])
  | some qid =>
    sessionLoop qid frames (writeBody (headerCalls (writeHeader emptyWriter 200) now) id3Stub)

theorem sessionLoop_all_ok (qid : Nat) :
    ∀ (frames : List (List Nat × WriteOutcome)) (w : RespWriter),
      w.wrote = true → (∀ f ∈ frames, f.2 = WriteOutcome.ok) →
      (sessionLoop qid frames w).1.sentStatus = w.sentStatus ∧
      (sessionLoop qid frames w).1.sentHeaders = w.sentHeaders ∧
      (sessionLoop qid frames w).1.flushes = w.flushes ∧
      (sessionLoop qid frames w).1.body = w.body ++ (frames.map Prod.fst).flatten := by
  intro frames
  induction frames with
  | nil =>
    intro w hw _
    rw [sessionLoop]
    simp
  | cons f rest ih =>
    obtain ⟨buf, outc⟩ := f
    intro w hw hok
    have houtc : outc = WriteOutcome.ok := hok (buf, outc) (List.mem_cons_self _ _)
    subst houtc
    rw [sessionLoop]
    have hw2 : (writeBody w buf).wrote = true := by
      simp [writeBody, hw]
    obtain ⟨i1, i2, i3, i4⟩ := ih (writeBody w buf) hw2
      (fun f hf => hok f (List.mem_cons.2 (Or.inr hf)))
    cases hrec : sessionLoop qid rest (writeBody w buf) with
    | mk wfin reps =>
      rw [hrec] at i1 i2 i3 i4
      dsimp only
      rw [writeBody, if_pos hw] at i1 i2 i3 i4
      refine ⟨i1, i2, i3, ?_⟩
      rw [i4]
      simp

theorem setHeader_fields (w : RespWriter) (k v : String) :
    (setHeader w k v).wrote = w.wrote ∧ (setHeader w k v).sentStatus = w.sentStatus ∧
    (setHeader w k v).sentHeaders = w.sentHeaders ∧ (setHeader w k v).body = w.body ∧
    (setHeader w k v).flushes = w.flushes := by
  rw [setHeader]
  split <;> exact ⟨rfl, rfl, rfl, rfl, rfl⟩

theorem headerCalls_fields (w : RespWriter) (now : String) :
    (headerCalls w now).wrote = w.wrote ∧ (headerCalls w now).sentStatus = w.sentStatus ∧
    (headerCalls w now).sentHeaders = w.sentHeaders ∧ (headerCalls w now).body = w.body ∧
    (headerCalls w now).flushes = w.flushes := by
  rw [headerCalls]
  obtain ⟨a1, a2, a3, a4, a5⟩ := setHeader_fields w "Date" now
  obtain ⟨b1, b2, b3, b4, b5⟩ :=
    setHeader_fields (setHeader w "Date" now) "Connection" "Keep-Alive"
  obtain ⟨c1, c2, c3, c4, c5⟩ :=
    setHeader_fields (setHeader (setHeader w "Date" now) "Connection" "Keep-Alive")
      "Cache-Control" "no-cache"
  obtain ⟨d1, d2, d3, d4, d5⟩ :=
    setHeader_fields (setHeader (setHeader (setHeader w "Date" now)
      "Connection" "Keep-Alive") "Cache-Control" "no-cache") "Content-Type" "audio/mpeg"
  obtain ⟨e1, e2, e3, e4, e5⟩ :=
    setHeader_fields (setHeader (setHeader (setHeader (setHeader w "Date" now)
      "Connection" "Keep-Alive") "Cache-Control" "no-cache") "Content-Type" "audio/mpeg")
      "Server" "BoringStreamer/4.0"
  exact ⟨e1.trans (d1.trans (c1.trans (b1.trans a1))),
    e2.trans (d2.trans (c2.trans (b2.trans a2))),
    e3.trans (d3.trans (c3.trans (b3.trans a3))),
    e4.trans (d4.trans (c4.trans (b4.trans a4))),
    e5.trans (d5.trans (c5.trans (b5.trans a5)))⟩

/-- C8 (evaluation of the code at the bug): for every successfully
subscribed connection whose frame writes all succeed, the response does
have the success status and its body is exactly the 10-byte stub followed
by the frame payloads in order — but it carries no headers at all: the
handler calls `WriteHeader(StatusOK)` before the five `Header().Set`
calls, so the date/keep-alive/no-cache/content-type/server headers are
never sent; and the loop never calls `Flush`, so no per-frame flush
happens. -/
theorem serveHTTP_headers_not_sent (now : String) (qid : Nat)
    (frames : List (List Nat × WriteOutcome))
    (hok : ∀ f ∈ frames, f.2 = WriteOutcome.ok) :
    (serveHTTP now (some qid) frames).1.sentStatus = some 200 ∧
    (serveHTTP now (some qid) frames).1.sentHeaders = [] ∧
    (serveHTTP now (some qid) frames).1.body = id3Stub ++ (frames.map Prod.fst).flatten ∧
    (serveHTTP now (some qid) frames).1.flushes = 0 := by
  rw [serveHTTP]
  obtain ⟨c1, c2, c3, c4, c5⟩ := headerCalls_fields (writeHeader emptyWriter 200) now
  have hwr : (writeHeader emptyWriter 200).wrote = true := rfl
  have hw1 : (headerCalls (writeHeader emptyWriter 200) now).wrote = true := c1.trans hwr
  have hb1 : (writeBody (headerCalls (writeHeader emptyWriter 200) now) id3Stub).wrote
      = true := by
    rw [writeBody, if_pos hw1]
    exact hw1
  have hb2 : (writeBody (headerCalls (writeHeader emptyWriter 200) now) id3Stub).sentStatus
      = some 200 := by
    rw [writeBody, if_pos hw1]
    exact c2
  have hb3 : (writeBody (headerCalls (writeHeader emptyWriter 200) now) id3Stub).sentHeaders
      = [] := by
    rw [writeBody, if_pos hw1]
    exact c3
  have hb4 : (writeBody (headerCalls (writeHeader emptyWriter 200) now) id3Stub).body
      = id3Stub := by
    rw [writeBody, if_pos hw1]
    show (headerCalls (writeHeader emptyWriter 200) now).body ++ id3Stub = id3Stub
    rw [c4]
    rfl
  have hb5 : (writeBody (headerCalls (writeHeader emptyWriter 200) now) id3Stub).flushes
      = 0 := by
    rw [writeBody, if_pos hw1]
    exact c5
  obtain ⟨s1, s2, s3, s4⟩ := sessionLoop_all_ok qid frames
    (writeBody (headerCalls (writeHeader emptyWriter 200) now) id3Stub) hb1 hok
  refine ⟨s1.trans hb2, s2.trans hb3, ?_, s3.trans hb5⟩
  rw [s4, hb4]

/-- C8 witness at a concrete connection: two frames, all writes succeed. -/
theorem serveHTTP_headers_not_sent_witness :
    (serveHTTP "now" (some 0) [([1, 2], WriteOutcome.ok), ([3], WriteOutcome.ok)]).1.sentStatus
        = some 200 ∧
    (serveHTTP "now" (some 0)
        [([1, 2], WriteOutcome.ok), ([3], WriteOutcome.ok)]).1.sentHeaders = [] ∧
    (serveHTTP "now" (some 0) [([1, 2], WriteOutcome.ok), ([3], WriteOutcome.ok)]).1.body
        = id3Stub ++ [1, 2, 3] ∧
    (serveHTTP "now" (some 0)
        [([1, 2], WriteOutcome.ok), ([3], WriteOutcome.ok)]).1.flushes = 0 := by
  have h := serveHTTP_headers_not_sent "now" 0
    [([1, 2], WriteOutcome.ok), ([3], WriteOutcome.ok)] (by decide)
  exact ⟨h.1, h.2.1, h.2.2.1.trans (by decide), h.2.2.2⟩

/-- C9: for every sequence of frames received by a session, the reports it
sends on the shared outcome queue all carry its own qid; while every write
completes in time it sends exactly one success report per frame; at the
first frame whose write fails or times out it sends exactly one failure
report (a timeout indication exactly when the deadline elapsed first) and
then stops: no report is ever sent for a later frame. -/
theorem session_reports (qid : Nat) :
    ∀ (frames : List (List Nat × WriteOutcome)) (w : RespWriter),
      ((∀ f ∈ frames, f.2 = WriteOutcome.ok) →
        (sessionLoop qid frames w).2 =
          List.replicate frames.length (qid, (none : Option RepErr)))
      ∧ (∀ pre buf outc post, frames = pre ++ (buf, outc) :: post →
          (∀ f ∈ pre, f.2 = WriteOutcome.ok) → outc ≠ WriteOutcome.ok →
          (sessionLoop qid frames w).2 =
            List.replicate pre.length (qid, (none : Option RepErr)) ++ [(qid, errOf outc)])
      ∧ (∀ r ∈ (sessionLoop qid frames w).2, r.1 = qid) := by
  intro frames
  induction frames with
  | nil =>
    intro w
    refine ⟨fun _ => rfl, ?_, ?_⟩
    · intro pre buf outc post heq
      cases pre <;> simp at heq
    · intro r hr
      rw [sessionLoop] at hr
      simp at hr
  | cons f rest ih =>
    obtain ⟨buf0, outc0⟩ := f
    intro w
    refine ⟨?_, ?_, ?_⟩
    · intro hok
      have h0 : outc0 = WriteOutcome.ok := hok (buf0, outc0) (List.mem_cons_self _ _)
      subst h0
      rw [sessionLoop]
      have hrest := (ih (writeBody w buf0)).1
        (fun f hf => hok f (List.mem_cons.2 (Or.inr hf)))
      cases hrec : sessionLoop qid rest (writeBody w buf0) with
      | mk wfin reps =>
        rw [hrec] at hrest
        dsimp only at hrest ⊢
        rw [hrest]
        simp [List.replicate_succ]
    · intro pre buf outc post heq hpre houtc
      cases pre with
      | nil =>
        simp only [List.nil_append, List.cons.injEq] at heq
        obtain ⟨heq1, rfl⟩ := heq
        injection heq1 with hb ho
        subst hb
        subst ho
        cases outc0 with
        | ok => exact absurd rfl houtc
        | errWrite => rfl
        | timedOut => rfl
      | cons p pre2 =>
        simp only [List.cons_append, List.cons.injEq] at heq
        obtain ⟨heq1, heq2⟩ := heq
        have hp : p.2 = WriteOutcome.ok := hpre p (List.mem_cons_self _ _)
        have h0 : outc0 = WriteOutcome.ok := by
          rw [← heq1] at hp
          exact hp
        subst h0
        rw [sessionLoop]
        have hrest := (ih (writeBody w buf0)).2.1 pre2 buf outc post heq2
          (fun f hf => hpre f (List.mem_cons.2 (Or.inr hf))) houtc
        cases hrec : sessionLoop qid rest (writeBody w buf0) with
        | mk wfin reps =>
          rw [hrec] at hrest
          dsimp only at hrest ⊢
          rw [hrest]
          simp [List.replicate_succ]
    · intro r hr
      cases outc0 with
      | ok =>
        rw [sessionLoop] at hr
        cases hrec : sessionLoop qid rest (writeBody w buf0) with
        | mk wfin reps =>
          rw [hrec] at hr
          dsimp only at hr
          rcases List.mem_cons.1 hr with rfl | hr
          · rfl
          · have := (ih (writeBody w buf0)).2.2 r
            rw [hrec] at this
            exact this hr
      | errWrite =>
        rw [sessionLoop] at hr
        simp only [List.mem_singleton] at hr
        subst hr
        rfl
      | timedOut =>
        rw [sessionLoop] at hr
        simp only [List.mem_singleton] at hr
        subst hr
        rfl

/-- C9 witness: a session (qid 5) that acks its first frame, then times
out on the second and reports nothing for the third. -/
theorem session_reports_witness :
    (sessionLoop 5 [([1], WriteOutcome.ok), ([2], WriteOutcome.timedOut),
        ([9], WriteOutcome.ok)] emptyWriter).2
      = [(5, (none : Option RepErr)), (5, some RepErr.timeout)] := by
  have h := (session_reports 5 [([1], WriteOutcome.ok), ([2], WriteOutcome.timedOut),
      ([9], WriteOutcome.ok)] emptyWriter).2.1
    [([1], WriteOutcome.ok)] [2] WriteOutcome.timedOut [([9], WriteOutcome.ok)]
    (by decide) (by decide) (by decide)
  exact h.trans (by decide)

end Boringstreamer
